import Mathlib

/-!
Shallow embedding of the stack-trace decoding core of the auto-fixer
repository.  Strings are modelled as `List Char`; the JavaScript regular
expressions used by the parser are modelled by a small backtracking engine
with leftmost, greedy semantics matching the JS `matchAll` behaviour for
the three concrete patterns that occur in the source.  Fallible external
calls (the source-map library, `fs`) are modelled by explicit result
values threaded through environments.
-/

namespace AutoFixer

/-- JS whitespace for the regex class `\s` (ASCII part plus NBSP/BOM). -/
def isJsSpace (c : Char) : Bool :=
  c == ' ' || c == '\t' || c == '\n' || c == '\r' ||
  c == '\x0b' || c == '\x0c' || c.toNat == 0xa0 || c.toNat == 0xfeff

/-- The regex metacharacter `.`: any character except a line terminator. -/
def isDotChar (c : Char) : Bool :=
  !(c == '\n' || c == '\r' || c.toNat == 0x2028 || c.toNat == 0x2029)

/-- JS `String.prototype.split(sep)` for a one-character separator:
`""` splits to `[""]`, separators at the ends produce empty fields. -/
def splitOnChar (sep : Char) : List Char → List (List Char)
  | [] => [[]]
  | c :: cs =>
    match splitOnChar sep cs with
    | [] => [[]]
    | h :: t => if c == sep then [] :: h :: t else (c :: h) :: t

/-- JS `String.prototype.trim`: strip leading and trailing whitespace. -/
def jsTrim (l : List Char) : List Char :=
  ((l.dropWhile isJsSpace).reverse.dropWhile isJsSpace).reverse

/-- JS `parseInt` restricted to the all-digit strings produced by the
capture groups `(\d+)` of the parser patterns. -/
def natOfDigits (l : List Char) : Nat :=
  l.foldl (fun a c => a * 10 + (c.toNat - 48)) 0

/-- JS `s.split('/').pop()`: the final path segment of a file reference. -/
def lastSegment (l : List Char) : List Char :=
  (splitOnChar '/' l).getLastD []

/-- JS `String.prototype.replace(pat, rep)` with a plain-string pattern:
replaces only the first occurrence, returns the input unchanged when the
pattern does not occur. -/
def replaceFirst (l pat rep : List Char) : List Char :=
  match l with
  | [] => []
  | c :: cs =>
    if pat.isPrefixOf (c :: cs) then rep ++ (c :: cs).drop pat.length
    else c :: replaceFirst cs pat rep

/-- The `.js` extension as a character list. -/
def jsExt : List Char := ('.' :: 'j' :: 's' :: [])

/-- The `.map` extension as a character list. -/
def dotMap : List Char := ('.' :: 'm' :: 'a' :: 'p' :: [])

/-- The `.js.map` extension as a character list. -/
def dotJsMap : List Char := ('.' :: 'j' :: 's' :: '.' :: 'm' :: 'a' :: 'p' :: [])

/-- JS `fileName.replace(/\.js$/, '')`: strip one trailing `.js`. -/
def stripJsExt (l : List Char) : List Char :=
  if jsExt.isSuffixOf l then l.take (l.length - 3) else l

/-- JS `String.prototype.lastIndexOf(c)`, `none` standing for `-1`. -/
def lastIndexOfChar (c : Char) (l : List Char) : Option Nat :=
  ((l.enum.filter (fun p => p.2 == c)).map Prod.fst).getLast?

/-- The test `/^\d+$/.test s`: nonempty and all digits. -/
def isAllDigitsStr (s : List Char) : Bool :=
  !s.isEmpty && s.all Char.isDigit

/-- Membership in the character class `[a-zA-Z0-9_-]`. -/
def isHashChar (c : Char) : Bool :=
  c.isAlphanum || c == '_' || c == '-'

/-- The test `/^[a-zA-Z0-9_-]{2,}$/.test s`. -/
def isHashWordStr (s : List Char) : Bool :=
  2 ≤ s.length && s.all isHashChar

/-- The test `/[A-Z]/.test s && /[a-z]/.test s`. -/
def hasUpperAndLower (s : List Char) : Bool :=
  s.any Char.isUpper && s.any Char.isLower

/-- The test `/\d/.test s`. -/
def hasDigit (s : List Char) : Bool :=
  s.any Char.isDigit

/-! ### A small backtracking regex engine

Just enough of JS regex semantics (leftmost match, greedy quantifiers,
numbered capture groups) for the three patterns of `parseStackTrace`. -/

/-- Regex abstract syntax: literals, character classes, sequencing, the
greedy option `?` and the greedy class repetition `+`, capture groups. -/
inductive Regex where
  | eps : Regex
  | lit : Char → Regex
  | cls : (Char → Bool) → Regex
  | seq : Regex → Regex → Regex
  | opt : Regex → Regex
  | plus : (Char → Bool) → Regex
  | group : Nat → Regex → Regex

/-- Captured groups of one match: group index paired with its text. -/
abbrev Caps := List (Nat × List Char)

/-- Length of the maximal run of characters satisfying `p`. -/
def runLen (p : Char → Bool) : List Char → Nat
  | [] => 0
  | c :: cs => if p c then runLen p cs + 1 else 0

/-- Greedy `+` over a class: try consuming `n, n-1, …, 1` characters. -/
def plusTry {α : Type} (cs : List Char) (caps : Caps)
    (k : List Char → Caps → Option α) : Nat → Option α
  | 0 => none
  | n + 1 =>
    match k (cs.drop (n + 1)) caps with
    | some r => some r
    | none => plusTry cs caps k n

/-- CPS matcher: try to match `re` at the head of `cs`, calling the
continuation `k` with the unconsumed remainder and the captures.
Backtracking is realised by the continuation returning `none`. -/
def matchFrom {α : Type} : Regex → List Char → Caps →
    (List Char → Caps → Option α) → Option α
  | .eps, cs, caps, k => k cs caps
  | .lit _, [], _, _ => none
  | .lit c, c2 :: cs, caps, k => if c2 == c then k cs caps else none
  | .cls _, [], _, _ => none
  | .cls p, c2 :: cs, caps, k => if p c2 then k cs caps else none
  | .seq r1 r2, cs, caps, k =>
    matchFrom r1 cs caps (fun cs2 caps2 => matchFrom r2 cs2 caps2 k)
  | .opt r, cs, caps, k =>
    match matchFrom r cs caps k with
    | some res => some res
    | none => k cs caps
  | .plus p, cs, caps, k => plusTry cs caps k (runLen p cs)
  | .group i r, cs, caps, k =>
    matchFrom r cs caps
      (fun cs2 caps2 => k cs2 ((i, cs.take (cs.length - cs2.length)) :: caps2))

/-- Match `re` at the start of `cs`; on success return the number of
consumed characters and the captures. -/
def reMatchLen (re : Regex) (cs : List Char) : Option (Nat × Caps) :=
  matchFrom re cs [] (fun rest caps => some (cs.length - rest.length, caps))

/-- Leftmost search: the first start offset (counted from `start`) at
which `re` matches, with match length and captures. -/
def searchGo (re : Regex) : List Char → Nat → Option (Nat × Nat × Caps)
  | s, start =>
    match reMatchLen re s with
    | some (len, caps) => some (start, len, caps)
    | none =>
      match s with
      | [] => none
      | _ :: rest => searchGo re rest (start + 1)

/-- Iterate matches like JS `matchAll`: resume after the end of each
match (advancing one character past an empty match).  The fuel argument
is a recursion bound; `matchAll` supplies `length + 1`, which the
per-iteration consumption of at least one character never exhausts. -/
def matchAllGo (re : Regex) : Nat → List Char → List Caps
  | 0, _ => []
  | fuel + 1, s =>
    match searchGo re s 0 with
    | none => []
    | some (start, len, caps) =>
      caps :: matchAllGo re fuel (s.drop (start + max len 1))

/-- JS `[...line.matchAll(re)]`, returning only the captures of each
match (the parser uses nothing else). -/
def matchAll (re : Regex) (s : List Char) : List Caps :=
  matchAllGo re (s.length + 1) s

/-- Sequencing of a list of regexes. -/
def reSeq (l : List Regex) : Regex := l.foldr .seq .eps

/-- A string literal regex. -/
def reStrLit (s : String) : Regex := reSeq (s.data.map .lit)

/-! ### Shared data model of one parsed frame -/

/-- One parsed stack-trace frame: `{ original, file, line, column }`. -/
structure Frame where
  original : List Char
  file : List Char
  line : Nat
  column : Nat
deriving DecidableEq

/-! ### Model of the external collaborators

The source-map consumer library and the filesystem are black boxes to
this core; they are modelled by explicit answer tables.  A call that may
throw yields a `JsResult`. -/

/-- Outcome of a JS call that may throw. -/
inductive JsResult (α : Type) where
  | ok : α → JsResult α
  | thrown : List Char → JsResult α
deriving DecidableEq

/-- Raw answer of the library's `originalPositionFor`: `source` is null
when the position has no mapping. -/
structure LibPos where
  source : Option (List Char)
  line : Nat
  column : Nat
  name : Option (List Char)
deriving DecidableEq

/-- A non-null original position as returned by `getOriginalPosition`. -/
structure PosInfo where
  source : List Char
  line : Nat
  column : Nat
  name : Option (List Char)
deriving DecidableEq

/-- Model of one opened `SourceMapConsumer`: its answers (or throws) to
the two queries the core performs. -/
structure ConsumerModel where
  originalPositionFor : Nat → Nat → JsResult LibPos
  sourceContentFor : List Char → JsResult (Option (List Char))

/-- One file of the source-map directory listing, with its mtime. -/
structure DirEntry where
  name : List Char
  mtime : Nat
deriving DecidableEq

/-- Per-frame environment: the listing of the configured source-map
directory (`none` when the directory does not exist), the behaviour of
`loadSourceMap` on each path (throws on malformed maps), and the
configured context radius. -/
structure DecoderEnv where
  dir : Option (List DirEntry)
  loadSourceMap : List Char → JsResult ConsumerModel
  contextLines : Nat

/-- `fs.existsSync` for a path inside the source-map directory. -/
def existsInDir (dir : Option (List DirEntry)) (f : List Char) : Bool :=
  match dir with
  | none => false
  | some files => files.any (fun e => e.name == f)

/-- One line of a source context window. -/
structure ContextLine where
  lineNum : Nat
  content : List Char
  isTarget : Bool
deriving DecidableEq

/-- Consumer lifecycle log of processing one frame. -/
structure FrameLog where
  opened : Bool
  destroyed : Bool
  posQueried : Bool
  contextQueried : Bool
deriving DecidableEq

/-! ## `decode-trace.js` (the interactive CLI) -/

namespace DecodeTrace

/-- Pattern `/https?:\/\/[^\s]+\/([^/:]+\.js):(\d+):(\d+)/g`. -/
def pattern1 : Regex :=
  reSeq [reStrLit ("http"), .opt (.lit 's'), reStrLit ("://"),
    .plus (fun c => !isJsSpace c), .lit '/',
    .group 1 (reSeq [.plus (fun c => !(c == '/' || c == ':')), reStrLit (".js")]),
    .lit ':', .group 2 (.plus Char.isDigit),
    .lit ':', .group 3 (.plus Char.isDigit)]

/-- Pattern `/at .+ \(([^:]+):(\d+):(\d+)\)/g`. -/
def pattern2 : Regex :=
  reSeq [reStrLit ("at "), .plus isDotChar, reStrLit (" ("),
    .group 1 (.plus (fun c => !(c == ':'))),
    .lit ':', .group 2 (.plus Char.isDigit),
    .lit ':', .group 3 (.plus Char.isDigit), .lit ')']

/-- Pattern `/at ([^:]+):(\d+):(\d+)/g`. -/
def pattern3 : Regex :=
  reSeq [reStrLit ("at "), .group 1 (.plus (fun c => !(c == ':'))),
    .lit ':', .group 2 (.plus Char.isDigit),
    .lit ':', .group 3 (.plus Char.isDigit)]

/-- The ordered pattern list of `parseStackTrace`. -/
def patterns : List Regex := [pattern1, pattern2, pattern3]

/-- `parseStackTrace` (decode-trace.js 45-76): split on newlines, apply
every pattern to every line, one frame per match; the file component is
`match[1].split('/').pop()`, line and column are `parseInt` of the digit
captures, `original` is the trimmed line. -/
def parseStackTrace (stackTrace : List Char) : List Frame :=
  (splitOnChar '\n' stackTrace).flatMap fun line =>
    patterns.flatMap fun pattern =>
      (matchAll pattern line).map fun m =>
        { original := jsTrim line
          file := lastSegment ((m.lookup 1).getD [])
          line := natOfDigits ((m.lookup 2).getD [])
          column := natOfDigits ((m.lookup 3).getD []) }

/-- Recursion core of `extractBaseName` (decode-trace.js 126-162),
operating on the extension-free name.  The source recurses as
`extractBaseName(nameWithoutExt.substring(0, lastDashIndex) + '.js')`;
that call first strips the `.js` it just appended
(`stripJsExt (p ++ jsExt) = p`, proved below), so the recursion is on
`take lastDashIndex` directly.  The fuel argument only bounds the
recursion depth: every recursive step strictly shortens the name, so the
initial fuel `fileName.length` supplied by `extractBaseName` is never
exhausted (`extractBaseNameGo_fuel` below). -/
def extractBaseNameGo : Nat → List Char → List Char
  | 0, nameWithoutExt => nameWithoutExt
  | fuel + 1, nameWithoutExt =>
    match lastIndexOfChar '-' nameWithoutExt with
    | none => nameWithoutExt
    | some lastDashIndex =>
      if 0 < lastDashIndex then
        let possibleHash := nameWithoutExt.drop (lastDashIndex + 1)
        if isAllDigitsStr possibleHash then
          extractBaseNameGo fuel (nameWithoutExt.take lastDashIndex)
        else if isHashWordStr possibleHash then
          if hasUpperAndLower possibleHash || hasDigit possibleHash then
            extractBaseNameGo fuel (nameWithoutExt.take lastDashIndex)
          else nameWithoutExt
        else nameWithoutExt
      else nameWithoutExt

/-- `extractBaseName` (decode-trace.js 126-162): strip the `.js`
extension, then repeatedly strip a trailing hash-like `-suffix`. -/
def extractBaseName (fileName : List Char) : List Char :=
  extractBaseNameGo fileName.length (stripJsExt fileName)

/-- `getOriginalPosition` (decode-trace.js 85-98): forward the library
answer, turning a null `source` into `null`. -/
def getOriginalPosition (pos : JsResult LibPos) : JsResult (Option PosInfo) :=
  match pos with
  | .thrown m => .thrown m
  | .ok p =>
    match p.source with
    | none => .ok none
    | some src =>
      .ok (some { source := src, line := p.line, column := p.column, name := p.name })

/-- `getSourceContext` (decode-trace.js 101-123).  The first argument is
the outcome of `consumer.sourceContentFor(sourcePath)`, whose throw is
swallowed by the function's own `try/catch`.  The JS guard
`if (!content) return null` is falsy-based, so the empty string is also
rejected.  `start` is `Math.max(0, line - contextLines - 1)`, which
truncated `Nat` subtraction computes exactly. -/
def getSourceContext (content : JsResult (Option (List Char))) (line : Nat)
    (contextLines : Nat) : Option (List ContextLine) :=
  match content with
  | .thrown _ => none
  | .ok none => none
  | .ok (some text) =>
    if text.isEmpty then none
    else
      let lines := splitOnChar '\n' text
      let start := line - (contextLines + 1)
      let stop := min lines.length (line + contextLines)
      some ((List.range' start (stop - start)).map fun i =>
        { lineNum := i + 1, content := lines.getD i [], isTarget := i + 1 == line })

/-- `findSourceMapFile` (decode-trace.js 165-237).  Paths are modelled
relative to the source-map directory (`path.join` with the fixed
directory prefix is injective, so nothing is lost).  The directory
listing also answers the `fs.existsSync` probes of the exact phase; a
missing directory (`dir = none`) fails both probes and then the fuzzy
phase returns `null` at its directory-existence guard.  `readdirSync` is
modelled as succeeding whenever the directory exists.  The JS
`sort((a, b) => b.mtime - a.mtime)` is stable, so taking index 0 selects
the earliest listed file among those of maximal mtime — which is what
the fold computes. -/
def findSourceMapFile (dir : Option (List DirEntry)) (fileName : List Char) :
    Option (List Char) :=
  let exactPatterns :=
    [fileName ++ dotMap, replaceFirst fileName jsExt dotJsMap]
  match exactPatterns.find? (fun p => existsInDir dir p) with
  | some p => some p
  | none =>
    match dir with
    | none => none
    | some files =>
      let baseName := extractBaseName fileName
      let matchingFiles := files.filter fun file =>
        dotJsMap.isSuffixOf file.name &&
        extractBaseName (replaceFirst file.name dotJsMap jsExt) == baseName
      match matchingFiles with
      | [] => none
      | f :: fs =>
        some ((fs.foldl (fun best x => if best.mtime < x.mtime then x else best) f).name)

/-- `processEntry` (decode-trace.js 309-367), instrumented with the
consumer lifecycle.  Printing and `createIDELink` are presentation only
and are not modelled.  `consumer.destroy()` is reached on the no-mapping
path (line 329) and at the end of the success path (line 362); the outer
`catch` (line 363) only logs, so when the position query throws, no
`destroy` call is reached. -/
def processEntry (env : DecoderEnv) (entry : Frame) : FrameLog :=
  match findSourceMapFile env.dir entry.file with
  | none =>
    { opened := false, destroyed := false, posQueried := false, contextQueried := false }
  | some sourceMapPath =>
    match env.loadSourceMap sourceMapPath with
    | .thrown _ =>
      { opened := false, destroyed := false, posQueried := false, contextQueried := false }
    | .ok consumer =>
      match getOriginalPosition (consumer.originalPositionFor entry.line entry.column) with
      | .thrown _ =>
        { opened := true, destroyed := false, posQueried := true, contextQueried := false }
      | .ok none =>
        { opened := true, destroyed := true, posQueried := true, contextQueried := false }
      | .ok (some original) =>
        let _ := getSourceContext (consumer.sourceContentFor original.source)
          original.line env.contextLines
        { opened := true, destroyed := true, posQueried := true, contextQueried := true }

end DecodeTrace

/-! ## The reusable wrapper class `StackTraceDecoder`
(`trace-decoder-wrapper.js`, src/unnamed/part_004)

The wrapper duplicates the CLI's parser, normalizer, resolver and
context extractor verbatim (claim C9); its `decodeEntry` returns a
composite result object or `null`. -/

namespace StackTraceDecoder

/-- Pattern `/https?:\/\/[^\s]+\/([^/:]+\.js):(\d+):(\d+)/g` (part_004 101). -/
def pattern1 : Regex :=
  reSeq [reStrLit ("http"), .opt (.lit 's'), reStrLit ("://"),
    .plus (fun c => !isJsSpace c), .lit '/',
    .group 1 (reSeq [.plus (fun c => !(c == '/' || c == ':')), reStrLit (".js")]),
    .lit ':', .group 2 (.plus Char.isDigit),
    .lit ':', .group 3 (.plus Char.isDigit)]

/-- Pattern `/at .+ \(([^:]+):(\d+):(\d+)\)/g` (part_004 103). -/
def pattern2 : Regex :=
  reSeq [reStrLit ("at "), .plus isDotChar, reStrLit (" ("),
    .group 1 (.plus (fun c => !(c == ':'))),
    .lit ':', .group 2 (.plus Char.isDigit),
    .lit ':', .group 3 (.plus Char.isDigit), .lit ')']

/-- Pattern `/at ([^:]+):(\d+):(\d+)/g` (part_004 105). -/
def pattern3 : Regex :=
  reSeq [reStrLit ("at "), .group 1 (.plus (fun c => !(c == ':'))),
    .lit ':', .group 2 (.plus Char.isDigit),
    .lit ':', .group 3 (.plus Char.isDigit)]

/-- The ordered pattern list of the wrapper's `parseStackTrace`. -/
def patterns : List Regex := [pattern1, pattern2, pattern3]

/-- `parseStackTrace` (part_004 95-124), byte-for-byte the CLI parser. -/
def parseStackTrace (stackTrace : List Char) : List Frame :=
  (splitOnChar '\n' stackTrace).flatMap fun line =>
    patterns.flatMap fun pattern =>
      (matchAll pattern line).map fun m =>
        { original := jsTrim line
          file := lastSegment ((m.lookup 1).getD [])
          line := natOfDigits ((m.lookup 2).getD [])
          column := natOfDigits ((m.lookup 3).getD []) }

/-- Recursion core of the wrapper's `extractBaseName` (part_004 182-206);
see `DecodeTrace.extractBaseNameGo` for the treatment of the recursive
call and of the fuel bound.  The wrapper writes the digit test and the
hash-word test as two sequential early-return `if`s instead of the CLI's
`if/else if`, which is the same decision tree. -/
def extractBaseNameGo : Nat → List Char → List Char
  | 0, nameWithoutExt => nameWithoutExt
  | fuel + 1, nameWithoutExt =>
    match lastIndexOfChar '-' nameWithoutExt with
    | none => nameWithoutExt
    | some lastDashIndex =>
      if 0 < lastDashIndex then
        let possibleHash := nameWithoutExt.drop (lastDashIndex + 1)
        if isAllDigitsStr possibleHash then
          extractBaseNameGo fuel (nameWithoutExt.take lastDashIndex)
        else if isHashWordStr possibleHash then
          if hasUpperAndLower possibleHash || hasDigit possibleHash then
            extractBaseNameGo fuel (nameWithoutExt.take lastDashIndex)
          else nameWithoutExt
        else nameWithoutExt
      else nameWithoutExt

/-- The wrapper's `extractBaseName` (part_004 182-206). -/
def extractBaseName (fileName : List Char) : List Char :=
  extractBaseNameGo fileName.length (stripJsExt fileName)

/-- The wrapper's `getOriginalPosition` (part_004 137-150). -/
def getOriginalPosition (pos : JsResult LibPos) : JsResult (Option PosInfo) :=
  match pos with
  | .thrown m => .thrown m
  | .ok p =>
    match p.source with
    | none => .ok none
    | some src =>
      .ok (some { source := src, line := p.line, column := p.column, name := p.name })

/-- The wrapper's `getSourceContext` (part_004 155-177): identical to the
CLI's, with the radius taken from `this.contextLines`. -/
def getSourceContext (content : JsResult (Option (List Char))) (line : Nat)
    (contextLines : Nat) : Option (List ContextLine) :=
  match content with
  | .thrown _ => none
  | .ok none => none
  | .ok (some text) =>
    if text.isEmpty then none
    else
      let lines := splitOnChar '\n' text
      let start := line - (contextLines + 1)
      let stop := min lines.length (line + contextLines)
      some ((List.range' start (stop - start)).map fun i =>
        { lineNum := i + 1, content := lines.getD i [], isTarget := i + 1 == line })

/-- The wrapper's `findSourceMapFile` (part_004 211-255): identical to
the CLI's resolver. -/
def findSourceMapFile (dir : Option (List DirEntry)) (fileName : List Char) :
    Option (List Char) :=
  let exactPatterns :=
    [fileName ++ dotMap, replaceFirst fileName jsExt dotJsMap]
  match exactPatterns.find? (fun p => existsInDir dir p) with
  | some p => some p
  | none =>
    match dir with
    | none => none
    | some files =>
      let baseName := extractBaseName fileName
      let matchingFiles := files.filter fun file =>
        dotJsMap.isSuffixOf file.name &&
        extractBaseName (replaceFirst file.name dotJsMap jsExt) == baseName
      match matchingFiles with
      | [] => none
      | f :: fs =>
        some ((fs.foldl (fun best x => if best.mtime < x.mtime then x else best) f).name)

/-- The `minified` part of a decode result (part_004 61-65). -/
structure MinifiedInfo where
  file : List Char
  line : Nat
  column : Nat
deriving DecidableEq

/-- The `original` part of a decode result (part_004 67-72). -/
structure OriginalInfo where
  file : List Char
  line : Nat
  column : Nat
  function : Option (List Char)
deriving DecidableEq

/-- The `context` part of a decode result (part_004 76-80). -/
structure ContextSummary where
  targetLine : Option (List Char)
  beforeLines : Option (List (List Char))
  afterLines : Option (List (List Char))
deriving DecidableEq

/-- The composite result object built by `decodeEntry` (part_004 59-81). -/
structure DecodeResult where
  minified : MinifiedInfo
  original : OriginalInfo
  sourceCode : Option (List ContextLine)
  context : ContextSummary
deriving DecidableEq

/-- Return value of the instrumented `decodeEntry`: the JS return value
(`result`, with `none` for `null`) plus the consumer lifecycle log. -/
structure DecodeLog where
  result : Option DecodeResult
  opened : Bool
  destroyed : Bool
  posQueried : Bool
  contextQueried : Bool
deriving DecidableEq

/-- `decodeEntry` (part_004 38-90), instrumented with the consumer
lifecycle.  Both failure returns (map not found, line 45; no mapping,
line 54) and the `catch` fallback (line 89) return `null`.
`consumer.destroy()` is reached on the no-mapping path (line 53) and on
the success path (line 83); the `catch` block (86-90) only logs, so a
throw from the position query reaches no `destroy` call. -/
def decodeEntry (env : DecoderEnv) (entry : Frame) : DecodeLog :=
  match findSourceMapFile env.dir entry.file with
  | none =>
    { result := none, opened := false, destroyed := false,
      posQueried := false, contextQueried := false }
  | some sourceMapPath =>
    match env.loadSourceMap sourceMapPath with
    | .thrown _ =>
      { result := none, opened := false, destroyed := false,
        posQueried := false, contextQueried := false }
    | .ok consumer =>
      match getOriginalPosition (consumer.originalPositionFor entry.line entry.column) with
      | .thrown _ =>
        { result := none, opened := true, destroyed := false,
          posQueried := true, contextQueried := false }
      | .ok none =>
        { result := none, opened := true, destroyed := true,
          posQueried := true, contextQueried := false }
      | .ok (some original) =>
        let sourceCode := getSourceContext (consumer.sourceContentFor original.source)
          original.line env.contextLines
        let result : DecodeResult :=
          { minified := { file := entry.file, line := entry.line, column := entry.column }
            original := { file := original.source, line := original.line,
                          column := original.column, function := original.name }
            sourceCode := sourceCode
            context :=
              { targetLine :=
                  (sourceCode.bind (fun sc => sc.find? (fun l => l.isTarget))).map
                    (fun l => l.content)
                beforeLines := sourceCode.map (fun sc =>
                  (sc.filter (fun l => l.lineNum < original.line)).map (fun l => l.content))
                afterLines := sourceCode.map (fun sc =>
                  (sc.filter (fun l => original.line < l.lineNum)).map (fun l => l.content)) } }
        { result := some result, opened := true, destroyed := true,
          posQueried := true, contextQueried := true }

/-- `decodeStackTrace` (part_004 23-33): parse, return `null` on zero
frames, otherwise decode only the first frame. -/
def decodeStackTrace (env : DecoderEnv) (stackTrace : List Char) : Option DecodeResult :=
  match parseStackTrace stackTrace with
  | [] => none
  | entry :: _ => (decodeEntry env entry).result

end StackTraceDecoder

/-! ## Claim-side definitions

`claimedNormalize` follows the words of claim C4, to be compared with the
source's `extractBaseName`; `claimedNormalizeAmended` is the same with
the one change the counterexample forces. -/

/-- Claim C4's suffix condition: all digits, or length ≥ 2 over
`[A-Za-z0-9_-]` containing a digit or both an uppercase and a lowercase
letter. -/
def claimQualifies (s : List Char) : Bool :=
  isAllDigitsStr s || (isHashWordStr s && (hasDigit s || hasUpperAndLower s))

/-- The normalizer exactly as claim C4 words it: strip the suffix after
the last `-` exactly when it qualifies, recursing until no suffix
qualifies — with no condition on the position of the `-`. -/
def claimedNormalizeGo : Nat → List Char → List Char
  | 0, n => n
  | fuel + 1, n =>
    match lastIndexOfChar '-' n with
    | none => n
    | some idx =>
      if claimQualifies (n.drop (idx + 1)) then claimedNormalizeGo fuel (n.take idx)
      else n

/-- Claim C4 as stated, on a whole filename. -/
def claimedNormalize (fileName : List Char) : List Char :=
  claimedNormalizeGo fileName.length (stripJsExt fileName)

/-- Claim C4 amended: the suffix is stripped exactly when it qualifies
AND the `-` separator is not the first character of the extension-free
name. -/
def claimedNormalizeAmendedGo : Nat → List Char → List Char
  | 0, n => n
  | fuel + 1, n =>
    match lastIndexOfChar '-' n with
    | none => n
    | some idx =>
      if 0 < idx then
        if claimQualifies (n.drop (idx + 1)) then
          claimedNormalizeAmendedGo fuel (n.take idx)
        else n
      else n

/-- The amended claim C4 on a whole filename. -/
def claimedNormalizeAmended (fileName : List Char) : List Char :=
  claimedNormalizeAmendedGo fileName.length (stripJsExt fileName)

/-! ## Supporting lemmas -/

/-- Appending `.js` and stripping it with `stripJsExt` is the identity:
this is why `extractBaseNameGo` may recurse on `take lastDashIndex`
where the source recurses through `extractBaseName(prefixPart + '.js')`. -/
theorem stripJsExt_append_jsExt (p : List Char) : stripJsExt (p ++ jsExt) = p := by
  unfold stripJsExt
  rw [if_pos]
  · simp [jsExt]
  · exact List.isSuffixOf_iff_suffix.mpr (List.suffix_append p jsExt)

/-- `stripJsExt` never lengthens its input. -/
theorem stripJsExt_length_le (l : List Char) : (stripJsExt l).length ≤ l.length := by
  unfold stripJsExt
  split
  · exact (List.length_take _ _).trans_le (Nat.min_le_right _ _)
  · exact Nat.le_refl _

/-- A successful `lastIndexOfChar` is a position inside the string. -/
theorem lastIndexOfChar_lt_length {c : Char} {l : List Char} {i : Nat}
    (h : lastIndexOfChar c l = some i) : i < l.length := by
  unfold lastIndexOfChar at h
  have hmem : i ∈ (l.enum.filter (fun p => p.2 == c)).map Prod.fst := by
    obtain ⟨hne, heq⟩ := List.mem_getLast?_eq_getLast (x := i) h
    exact heq ▸ List.getLast_mem hne
  obtain ⟨⟨j, ch⟩, hin, hfst⟩ := List.mem_map.mp hmem
  obtain ⟨henum, -⟩ := List.mem_filter.mp hin
  have hj := List.mem_enum_iff_getElem?.mp henum
  cases hfst
  exact (List.getElem?_eq_some.mp hj).1

/-- The normalizer core fixes the empty name at any fuel. -/
theorem extractBaseNameGo_nil (fuel : Nat) :
    DecodeTrace.extractBaseNameGo fuel [] = [] := by
  cases fuel <;> rfl

/-- Outputs of the normalizer core (run with sufficient fuel) are fixed
points of the core at every fuel: the recursion stops only when no
qualifying suffix is left, and fuel `≥` the name length is never
exhausted because every strip shortens the name. -/
theorem extractBaseNameGo_fix :
    ∀ fuel n, n.length ≤ fuel → ∀ fuel2,
      DecodeTrace.extractBaseNameGo fuel2 (DecodeTrace.extractBaseNameGo fuel n) =
        DecodeTrace.extractBaseNameGo fuel n := by
  intro fuel
  induction fuel with
  | zero =>
    intro n hn fuel2
    have : n = [] := List.length_eq_zero.mp (Nat.le_zero.mp hn)
    subst this
    simp [extractBaseNameGo_nil]
  | succ f ih =>
    intro n hn fuel2
    cases hd : lastIndexOfChar '-' n with
    | none =>
      have hstop : DecodeTrace.extractBaseNameGo (f + 1) n = n := by
        simp only [DecodeTrace.extractBaseNameGo, hd]
      rw [hstop]
      cases fuel2 with
      | zero => rfl
      | succ f2 => simp only [DecodeTrace.extractBaseNameGo, hd]
    | some idx =>
      have hlt : idx < n.length := lastIndexOfChar_lt_length hd
      have htake : (n.take idx).length ≤ f := by
        rw [List.length_take]
        omega
      by_cases hidx : 0 < idx
      · by_cases h1 : isAllDigitsStr (n.drop (idx + 1)) = true
        · have hrec : DecodeTrace.extractBaseNameGo (f + 1) n =
              DecodeTrace.extractBaseNameGo f (n.take idx) := by
            simp only [DecodeTrace.extractBaseNameGo, hd, if_pos hidx, h1, if_true]
          rw [hrec]
          exact ih (n.take idx) htake fuel2
        · by_cases h2 : isHashWordStr (n.drop (idx + 1)) = true
          · by_cases h3 : (hasUpperAndLower (n.drop (idx + 1)) ||
                hasDigit (n.drop (idx + 1))) = true
            · have hrec : DecodeTrace.extractBaseNameGo (f + 1) n =
                  DecodeTrace.extractBaseNameGo f (n.take idx) := by
                simp only [DecodeTrace.extractBaseNameGo, hd, if_pos hidx]
                simp [h1, h2, h3]
              rw [hrec]
              exact ih (n.take idx) htake fuel2
            · have hstop : DecodeTrace.extractBaseNameGo (f + 1) n = n := by
                simp only [DecodeTrace.extractBaseNameGo, hd, if_pos hidx]
                simp [h1, h2, h3]
              rw [hstop]
              cases fuel2 with
              | zero => rfl
              | succ f2 =>
                simp only [DecodeTrace.extractBaseNameGo, hd, if_pos hidx]
                simp [h1, h2, h3]
          · have hstop : DecodeTrace.extractBaseNameGo (f + 1) n = n := by
              simp only [DecodeTrace.extractBaseNameGo, hd, if_pos hidx]
              simp [h1, h2]
            rw [hstop]
            cases fuel2 with
            | zero => rfl
            | succ f2 =>
              simp only [DecodeTrace.extractBaseNameGo, hd, if_pos hidx]
              simp [h1, h2]
      · have hstop : DecodeTrace.extractBaseNameGo (f + 1) n = n := by
          simp only [DecodeTrace.extractBaseNameGo, hd, if_neg hidx]
        rw [hstop]
        cases fuel2 with
        | zero => rfl
        | succ f2 => simp only [DecodeTrace.extractBaseNameGo, hd, if_neg hidx]

/-- When a string does not end in `.js`, `stripJsExt` is the identity. -/
theorem stripJsExt_eq_self {l : List Char} (h : jsExt.isSuffixOf l = false) :
    stripJsExt l = l := by
  unfold stripJsExt
  simp [h]

/-- The source's nested suffix tests decide exactly the amended claim's
single disjunction, so the two recursions agree at every fuel. -/
theorem extractBaseNameGo_eq_claimedAmended :
    ∀ fuel n, DecodeTrace.extractBaseNameGo fuel n = claimedNormalizeAmendedGo fuel n := by
  intro fuel
  induction fuel with
  | zero => intro n; rfl
  | succ f ih =>
    intro n
    cases hd : lastIndexOfChar '-' n with
    | none => simp only [DecodeTrace.extractBaseNameGo, claimedNormalizeAmendedGo, hd]
    | some idx =>
      simp only [DecodeTrace.extractBaseNameGo, claimedNormalizeAmendedGo, hd]
      by_cases hidx : 0 < idx
      · simp only [if_pos hidx]
        by_cases h1 : isAllDigitsStr (n.drop (idx + 1)) = true
        · simp [claimQualifies, h1, ih]
        · by_cases h2 : isHashWordStr (n.drop (idx + 1)) = true
          · by_cases hu : hasUpperAndLower (n.drop (idx + 1)) = true
            · simp [claimQualifies, h1, h2, hu, ih]
            · by_cases hg : hasDigit (n.drop (idx + 1)) = true
              · simp [claimQualifies, h1, h2, hu, hg, ih]
              · simp [claimQualifies, h1, h2, hu, hg]
          · simp [claimQualifies, h1, h2]
      · simp [hidx]

/-- `splitOnChar` never returns the empty list of fields. -/
theorem splitOnChar_ne_nil (sep : Char) : ∀ l, splitOnChar sep l ≠ [] := by
  intro l
  induction l with
  | nil => simp [splitOnChar]
  | cons c cs ih =>
    simp only [splitOnChar]
    cases h : splitOnChar sep cs with
    | nil => simp
    | cons hh t => by_cases hc : (c == sep) = true <;> simp [hc]

/-- No field returned by `splitOnChar` contains the separator. -/
theorem sep_not_mem_splitOnChar (sep : Char) :
    ∀ l part, part ∈ splitOnChar sep l → sep ∉ part := by
  intro l
  induction l with
  | nil =>
    intro part h
    simp only [splitOnChar, List.mem_singleton] at h
    subst h
    simp
  | cons c cs ih =>
    intro part h
    simp only [splitOnChar] at h
    cases hs : splitOnChar sep cs with
    | nil => exact absurd hs (splitOnChar_ne_nil sep cs)
    | cons hh t =>
      rw [hs] at h
      have h2 : part ∈ (if (c == sep) = true then [] :: hh :: t
          else (c :: hh) :: t) := h
      by_cases hc : (c == sep) = true
      · rw [if_pos hc] at h2
        rcases List.mem_cons.mp h2 with h0 | h1
        · subst h0; simp
        · exact ih part (hs ▸ h1)
      · rw [if_neg hc] at h2
        rcases List.mem_cons.mp h2 with h0 | h1
        · subst h0
          intro hmem
          rcases List.mem_cons.mp hmem with h3 | h4
          · exact hc (by simp [h3])
          · exact ih hh (hs ▸ List.mem_cons_self hh t) h4
        · exact ih part (hs ▸ List.mem_cons_of_mem hh h1)

/-- The final path segment contains no `/`. -/
theorem slash_not_mem_lastSegment (l : List Char) : '/' ∉ lastSegment l := by
  unfold lastSegment
  have hne := splitOnChar_ne_nil '/' l
  rw [List.getLastD_eq_getLast?, List.getLast?_eq_getLast_of_ne_nil hne]
  exact sep_not_mem_splitOnChar '/' l _ (List.getLast_mem hne)

/-- The resolver's fold (modelling the stable descending sort by mtime
followed by taking index 0) returns the unique entry of strictly maximal
mtime. -/
theorem foldl_latest {c : DirEntry} :
    ∀ (l : List DirEntry) (b : DirEntry),
      (c = b ∨ c ∈ l) →
      (∀ x, (x = b ∨ x ∈ l) → x ≠ c → x.mtime < c.mtime) →
      l.foldl (fun best x => if best.mtime < x.mtime then x else best) b = c := by
  intro l
  induction l with
  | nil =>
    intro b hmem _
    rcases hmem with h | h
    · simpa using h.symm
    · exact absurd h (List.not_mem_nil c)
  | cons x l ih =>
    intro b hmem hmax
    simp only [List.foldl_cons]
    apply ih
    · by_cases hbx : b.mtime < x.mtime
      · rw [if_pos hbx]
        rcases hmem with hb | hx
        · subst hb
          by_cases hxc : x = c
          · exact Or.inl hxc.symm
          · exact absurd (hmax x (Or.inr (List.mem_cons_self x l)) hxc) (by omega)
        · rcases List.mem_cons.mp hx with h0 | h1
          · exact Or.inl h0
          · exact Or.inr h1
      · rw [if_neg hbx]
        rcases hmem with hb | hx
        · exact Or.inl hb
        · rcases List.mem_cons.mp hx with h0 | h1
          · subst h0
            by_cases hbc : b = c
            · exact Or.inl hbc.symm
            · exact absurd (hmax b (Or.inl rfl) hbc) (by omega)
          · exact Or.inr h1
    · intro y hy hyc
      rcases hy with hfold | hmem2
      · by_cases hbx : b.mtime < x.mtime
        · rw [if_pos hbx] at hfold
          exact hmax y (Or.inr (by rw [hfold]; exact List.mem_cons_self x l)) hyc
        · rw [if_neg hbx] at hfold
          exact hmax y (Or.inl hfold) hyc
      · exact hmax y (Or.inr (List.mem_cons_of_mem x hmem2)) hyc

/-- Counting the single target line in an index range: the predicate
`i + 1 == line` holds for exactly one element of `range' s n` exactly
when `line` lies in the 1-based window. -/
theorem countP_range'_target (line : Nat) :
    ∀ n s, (List.range' s n).countP (fun i => i + 1 == line) =
      if s + 1 ≤ line ∧ line ≤ s + n then 1 else 0 := by
  intro n
  induction n with
  | zero =>
    intro s
    rw [if_neg (by omega)]
    rfl
  | succ m ih =>
    intro s
    rw [List.range'_succ, List.countP_cons, ih (s + 1)]
    simp only [beq_iff_eq]
    split_ifs <;> omega

/-- The wrapper's normalizer core and the CLI's agree at every fuel:
the two sources duplicate the decision tree verbatim. -/
theorem wrapper_cli_go_eq :
    ∀ fuel n, StackTraceDecoder.extractBaseNameGo fuel n =
      DecodeTrace.extractBaseNameGo fuel n := by
  intro fuel
  induction fuel with
  | zero => intro n; rfl
  | succ f ih =>
    intro n
    cases hd : lastIndexOfChar '-' n with
    | none =>
      simp only [StackTraceDecoder.extractBaseNameGo, DecodeTrace.extractBaseNameGo, hd]
    | some idx =>
      simp only [StackTraceDecoder.extractBaseNameGo, DecodeTrace.extractBaseNameGo, hd]
      by_cases hidx : 0 < idx
      · simp only [if_pos hidx]
        by_cases h1 : isAllDigitsStr (n.drop (idx + 1)) = true
        · simp [h1, ih]
        · by_cases h2 : isHashWordStr (n.drop (idx + 1)) = true
          · by_cases h3 : (hasUpperAndLower (n.drop (idx + 1)) ||
                hasDigit (n.drop (idx + 1))) = true
            · simp [h1, h2, h3, ih]
            · simp [h1, h2, h3]
          · simp [h1, h2]
      · simp [hidx]

/-! ## Claim C1 — consumer release on every exit path -/

/-- Consumer model for the C1 failing input: like the real source-map
library, `originalPositionFor` throws a `TypeError` when the queried
line is below 1. -/
def c1Consumer : ConsumerModel :=
  { originalPositionFor := fun line _ =>
      if line < 1 then .thrown (("Line must be greater than or equal to 1, got 0").data)
      else .ok { source := none, line := 0, column := 0, name := none }
    sourceContentFor := fun _ => .ok none }

/-- Environment for C1: the map `x.js.map` resolves and opens fine. -/
def c1Env : DecoderEnv :=
  { dir := some [{ name := ("x.js.map").data, mtime := 5 }]
    loadSourceMap := fun _ => .ok c1Consumer
    contextLines := 3 }

/-- The frame the parser produces from the trace line `at x:0:0`. -/
def c1Entry : Frame :=
  { original := ("at x:0:0").data, file := ("x").data, line := 0, column := 0 }

/-- Claim C1 (code bug): the trace `at x:0:0` parses to a frame with
line 0; its source map resolves and opens, but the position query throws
(the source-map library rejects lines below 1), and then neither
`processEntry` nor `decodeEntry` ever calls `consumer.destroy()` — the
outer `catch` blocks only log.  The claim (spec §3/§5/§7: release on
every exit path, including errors) is right and the code lacks the
required `try/finally`. -/
theorem c1_destroy_skipped_when_position_query_throws :
    DecodeTrace.parseStackTrace (("at x:0:0").data) = [c1Entry] ∧
    (DecodeTrace.processEntry c1Env c1Entry).opened = true ∧
    (DecodeTrace.processEntry c1Env c1Entry).destroyed = false ∧
    (StackTraceDecoder.decodeEntry c1Env c1Entry).opened = true ∧
    (StackTraceDecoder.decodeEntry c1Env c1Entry).destroyed = false := by
  decide

/-! ## Claim C2 — typed failure outcomes -/

/-- Environment in which no source map exists at all. -/
def c2EnvNotFound : DecoderEnv :=
  { dir := some [], loadSourceMap := fun _ => .thrown [], contextLines := 3 }

/-- Consumer that reports no mapping (null source) for every position. -/
def c2ConsumerNoMapping : ConsumerModel :=
  { originalPositionFor := fun _ _ =>
      .ok { source := none, line := 0, column := 0, name := none }
    sourceContentFor := fun _ => .ok none }

/-- Environment in which the map opens but yields no mapping. -/
def c2EnvNoMapping : DecoderEnv :=
  { dir := some [{ name := ("bundle.js.map").data, mtime := 1 }]
    loadSourceMap := fun _ => .ok c2ConsumerNoMapping
    contextLines := 3 }

/-- A frame for `bundle.js:10:5`. -/
def c2Entry : Frame :=
  { original := ("at foo (bundle.js:10:5)").data, file := ("bundle.js").data,
    line := 10, column := 5 }

/-- Claim C2 counterexample: `decodeEntry` returns the very same value
(`null`) in the map-not-found environment and in the no-mapping
environment, so the caller cannot distinguish `SOURCE_MAP_NOT_FOUND`
from `NO_MAPPING` from the return value — there is no typed failure
outcome. -/
theorem c2_counterexample :
    (StackTraceDecoder.decodeEntry c2EnvNotFound c2Entry).result = none ∧
    (StackTraceDecoder.decodeEntry c2EnvNoMapping c2Entry).result = none ∧
    (StackTraceDecoder.decodeEntry c2EnvNotFound c2Entry).result =
      (StackTraceDecoder.decodeEntry c2EnvNoMapping c2Entry).result := by
  decide

/-- Claim C2 (amended): the per-frame pipeline returns either a
populated composite result (whose `minified` part echoes the input
frame) or `null`; `null` is returned both when no map candidate is found
and when the map yields no mapping, so the two failure kinds are not
distinguishable from the return value. -/
theorem c2_null_or_populated_result (env : DecoderEnv) (entry : Frame) :
    (StackTraceDecoder.findSourceMapFile env.dir entry.file = none →
      (StackTraceDecoder.decodeEntry env entry).result = none) ∧
    (∀ p consumer lp,
      StackTraceDecoder.findSourceMapFile env.dir entry.file = some p →
      env.loadSourceMap p = .ok consumer →
      consumer.originalPositionFor entry.line entry.column = .ok lp →
      lp.source = none →
      (StackTraceDecoder.decodeEntry env entry).result = none) ∧
    ((StackTraceDecoder.decodeEntry env entry).result = none ∨
      ∃ r, (StackTraceDecoder.decodeEntry env entry).result = some r ∧
        r.minified = ⟨entry.file, entry.line, entry.column⟩) := by
  refine ⟨?_, ?_, ?_⟩
  · intro h
    simp [StackTraceDecoder.decodeEntry, h]
  · intro p consumer lp h1 h2 h3 h4
    simp [StackTraceDecoder.decodeEntry, h1, h2, StackTraceDecoder.getOriginalPosition, h3, h4]
  · cases hf : StackTraceDecoder.findSourceMapFile env.dir entry.file with
    | none => left; simp [StackTraceDecoder.decodeEntry, hf]
    | some p =>
      cases hl : env.loadSourceMap p with
      | thrown m => left; simp [StackTraceDecoder.decodeEntry, hf, hl]
      | ok consumer =>
        cases hp : StackTraceDecoder.getOriginalPosition
            (consumer.originalPositionFor entry.line entry.column) with
        | thrown m => left; simp [StackTraceDecoder.decodeEntry, hf, hl, hp]
        | ok op =>
          cases op with
          | none => left; simp [StackTraceDecoder.decodeEntry, hf, hl, hp]
          | some original =>
            right
            simp only [StackTraceDecoder.decodeEntry, hf, hl, hp]
            exact ⟨_, rfl, rfl⟩

/-- Closed instance of `c2_null_or_populated_result` at the two concrete
environments, discharging its hypotheses. -/
theorem c2_witness :
    (StackTraceDecoder.decodeEntry c2EnvNotFound c2Entry).result = none ∧
    (StackTraceDecoder.decodeEntry c2EnvNoMapping c2Entry).result = none :=
  ⟨(c2_null_or_populated_result c2EnvNotFound c2Entry).1 (by decide),
   (c2_null_or_populated_result c2EnvNoMapping c2Entry).2.1
     (("bundle.js.map").data) c2ConsumerNoMapping
     { source := none, line := 0, column := 0, name := none }
     (by decide) rfl rfl rfl⟩

/-! ## Claim C3 — parsing `at foo (bundle.js:10:5)` -/

/-- Claim C3 counterexample: the line does not parse to exactly one
frame (it parses to two: the parenthesis pattern and the bare pattern
both match). -/
theorem c3_counterexample :
    ¬ ((DecodeTrace.parseStackTrace (("at foo (bundle.js:10:5)").data)).length = 1) := by
  decide

/-- Claim C3 (amended): the line parses to exactly two frames; the
first, from the `at symbol (file:line:col)` pattern, is
`{file: bundle.js, line: 10, column: 5}`; the bare `at file:line:col`
pattern also matches the same text with the greedy group
`foo (bundle.js`, contributing a second frame. -/
theorem c3_parse_yields_two_frames :
    DecodeTrace.parseStackTrace (("at foo (bundle.js:10:5)").data) =
      [{ original := ("at foo (bundle.js:10:5)").data, file := ("bundle.js").data,
         line := 10, column := 5 },
       { original := ("at foo (bundle.js:10:5)").data, file := ("foo (bundle.js").data,
         line := 10, column := 5 }] := by
  decide

/-! ## Claim C4 — the normalizer's stripping condition -/

/-- Claim C4 counterexample: for `-1.js` the suffix after the last `-`
is `1`, all digits, so the claim as stated strips it (and the claimed
recursion then yields the empty name), but the code requires the `-` not
to be the first character and returns `-1` unchanged. -/
theorem c4_counterexample :
    DecodeTrace.extractBaseName (("-1.js").data) = ("-1").data ∧
    claimedNormalize (("-1.js").data) = [] ∧
    ¬ (DecodeTrace.extractBaseName (("-1.js").data) =
        claimedNormalize (("-1.js").data)) := by
  decide

/-- Claim C4 (amended): `normalize` strips a trailing `-`-separated
suffix exactly when the `-` is not the first character of the
extension-free name and the suffix is all digits, or is length ≥ 2 over
`[A-Za-z0-9_-]` and contains a digit or both an uppercase and a
lowercase letter, recursing until no suffix qualifies; in particular the
two examples of the claim hold. -/
theorem c4_normalizer_characterization :
    (∀ f, DecodeTrace.extractBaseName f = claimedNormalizeAmended f) ∧
    DecodeTrace.extractBaseName (("useAccessibilityStore-Q8JOaMCl.js").data) =
      ("useAccessibilityStore").data ∧
    DecodeTrace.extractBaseName (("foo-ab.js").data) = ("foo-ab").data := by
  refine ⟨fun f => ?_, by decide, by decide⟩
  unfold DecodeTrace.extractBaseName claimedNormalizeAmended
  exact extractBaseNameGo_eq_claimedAmended _ _

/-! ## Claim C5 — idempotence of the normalizer -/

/-- Claim C5 counterexample: `normalize` is not idempotent: for
`a.js.js` one application strips a single `.js` and returns `a.js`,
which a second application reduces further to `a`. -/
theorem c5_counterexample :
    ¬ (DecodeTrace.extractBaseName (DecodeTrace.extractBaseName (("a.js.js").data)) =
        DecodeTrace.extractBaseName (("a.js.js").data)) := by
  decide

/-- Claim C5 (amended): `normalize` is idempotent on every filename
whose normalized form does not itself end in `.js` (the counterexample
shows a doubled extension defeats idempotence, because the second
application strips another `.js`). -/
theorem c5_idempotent_on_stable_results (f : List Char)
    (h : jsExt.isSuffixOf (DecodeTrace.extractBaseName f) = false) :
    DecodeTrace.extractBaseName (DecodeTrace.extractBaseName f) =
      DecodeTrace.extractBaseName f := by
  have hstrip := stripJsExt_eq_self h
  show DecodeTrace.extractBaseNameGo (DecodeTrace.extractBaseName f).length
      (stripJsExt (DecodeTrace.extractBaseName f)) = DecodeTrace.extractBaseName f
  rw [hstrip]
  exact extractBaseNameGo_fix f.length (stripJsExt f) (stripJsExt_length_le f) _

/-- Closed instance of `c5_idempotent_on_stable_results`. -/
theorem c5_witness :
    DecodeTrace.extractBaseName (DecodeTrace.extractBaseName (("foo-ab.js").data)) =
      DecodeTrace.extractBaseName (("foo-ab.js").data) :=
  c5_idempotent_on_stable_results (("foo-ab.js").data) (by decide)

/-! ## Claim C6 — fuzzy-phase recency tie-break -/

/-- Claim C6: in the resolver's fuzzy phase (exact probes missed, the
directory exists), among the `*.js.map` files whose normalized base name
equals the normalized query — here at least two — the one with strictly
the most recent modification time is returned; with no matching
candidate the resolver returns not-found. -/
theorem c6_fuzzy_latest_mtime (files : List DirEntry) (fileName : List Char)
    (candidates : List DirEntry) (c : DirEntry)
    (hexact1 : existsInDir (some files) (fileName ++ dotMap) = false)
    (hexact2 : existsInDir (some files)
      (replaceFirst fileName jsExt dotJsMap) = false)
    (hcand : candidates = files.filter (fun file =>
      dotJsMap.isSuffixOf file.name &&
      (DecodeTrace.extractBaseName (replaceFirst file.name dotJsMap jsExt) ==
        DecodeTrace.extractBaseName fileName))) :
    (2 ≤ candidates.length → c ∈ candidates →
      (∀ x ∈ candidates, x ≠ c → x.mtime < c.mtime) →
      DecodeTrace.findSourceMapFile (some files) fileName = some c.name) ∧
    (candidates = [] → DecodeTrace.findSourceMapFile (some files) fileName = none) := by
  subst hcand
  constructor
  · intro _ hmem hmax
    simp only [DecodeTrace.findSourceMapFile, List.find?, hexact1, hexact2]
    cases hfc : files.filter (fun file =>
        dotJsMap.isSuffixOf file.name &&
        (DecodeTrace.extractBaseName (replaceFirst file.name dotJsMap jsExt) ==
          DecodeTrace.extractBaseName fileName)) with
    | nil => rw [hfc] at hmem; exact absurd hmem (List.not_mem_nil c)
    | cons f fs =>
      rw [hfc] at hmem hmax
      have hfold := foldl_latest (c := c) fs f
        (by rcases List.mem_cons.mp hmem with h | h; exact Or.inl h; exact Or.inr h)
        (by
          intro x hx hxc
          rcases hx with h | h
          · exact hmax x (h ▸ List.mem_cons_self f fs) hxc
          · exact hmax x (List.mem_cons_of_mem f h) hxc)
      show some ((fs.foldl (fun best x => if best.mtime < x.mtime then x else best) f).name) =
        some c.name
      rw [hfold]
  · intro hc
    simp only [DecodeTrace.findSourceMapFile, List.find?, hexact1, hexact2]
    rw [hc]

/-- Directory listing for the C6 witness: two fuzzy candidates for base
name `index`, modified at times 10 and 20. -/
def c6Files : List DirEntry :=
  [{ name := ("index-Bb2.js.map").data, mtime := 10 },
   { name := ("index-Cc3.js.map").data, mtime := 20 }]

/-- Closed instance of `c6_fuzzy_latest_mtime`: the fresher candidate
`index-Cc3.js.map` wins. -/
theorem c6_witness :
    DecodeTrace.findSourceMapFile (some c6Files) (("index-Aa1.js").data) =
      some (("index-Cc3.js.map").data) :=
  (c6_fuzzy_latest_mtime c6Files (("index-Aa1.js").data) c6Files
      { name := ("index-Cc3.js.map").data, mtime := 20 }
      (by decide) (by decide) (by decide)).1
    (by decide) (by decide) (by decide)

/-! ## Claim C7 — exactly one target line in the context window -/

/-- Claim C7 counterexample: the empty source text splits into one line,
so target line 1 is within the claim's file bounds, yet the extractor
returns `null` (the falsy guard `if (!content)` rejects the empty
string), producing zero `isTarget` entries instead of exactly one. -/
theorem c7_counterexample :
    1 ≤ (splitOnChar '\n' ([] : List Char)).length ∧
    DecodeTrace.getSourceContext (.ok (some [])) 1 3 = none := by
  decide

/-- Claim C7 (amended): for every nonempty source text, target line
within file bounds and radius, the context window exists and contains
exactly one `isTarget` entry, whose line number is the target line; and
when the mapped position is null the extractor is not invoked at all. -/
theorem c7_context_window_target :
    (∀ (text : List Char) (line contextLines : Nat), text ≠ [] → 1 ≤ line →
      line ≤ (splitOnChar '\n' text).length →
      ∃ w, DecodeTrace.getSourceContext (.ok (some text)) line contextLines = some w ∧
        w.countP (fun e => e.isTarget) = 1 ∧
        ∀ e ∈ w, e.isTarget = true → e.lineNum = line) ∧
    (∀ (env : DecoderEnv) (entry : Frame) (p : List Char)
      (consumer : ConsumerModel) (lp : LibPos),
      DecodeTrace.findSourceMapFile env.dir entry.file = some p →
      env.loadSourceMap p = .ok consumer →
      consumer.originalPositionFor entry.line entry.column = .ok lp →
      lp.source = none →
      (DecodeTrace.processEntry env entry).contextQueried = false) := by
  constructor
  · intro text line contextLines htext hline1 hline2
    have hempty : text.isEmpty = false := by
      cases text
      · exact absurd rfl htext
      · rfl
    have heq : DecodeTrace.getSourceContext (.ok (some text)) line contextLines =
        some ((List.range' (line - (contextLines + 1))
          (min (splitOnChar '\n' text).length (line + contextLines) -
            (line - (contextLines + 1)))).map fun i =>
          ({ lineNum := i + 1, content := (splitOnChar '\n' text).getD i [],
             isTarget := i + 1 == line } : ContextLine)) := by
      simp only [DecodeTrace.getSourceContext, hempty, Bool.false_eq_true, if_false]
    refine ⟨_, heq, ?_, ?_⟩
    · rw [List.countP_map]
      have hcomp : ((fun e => ContextLine.isTarget e) ∘ (fun i =>
          ({ lineNum := i + 1, content := (splitOnChar '\n' text).getD i [],
             isTarget := i + 1 == line } : ContextLine))) =
          fun i => i + 1 == line := rfl
      rw [hcomp, countP_range'_target]
      have hm1 : min (splitOnChar '\n' text).length (line + contextLines) ≤
          (splitOnChar '\n' text).length := Nat.min_le_left _ _
      have hm2 : min (splitOnChar '\n' text).length (line + contextLines) ≤
          line + contextLines := Nat.min_le_right _ _
      have hm3 : line ≤ min (splitOnChar '\n' text).length (line + contextLines) :=
        Nat.le_min.mpr ⟨hline2, Nat.le_add_right _ _⟩
      rw [if_pos (by omega)]
    · intro e he ht
      obtain ⟨i, hi, rfl⟩ := List.mem_map.mp he
      simpa using (beq_iff_eq.mp ht)
  · intro env entry p consumer lp h1 h2 h3 h4
    simp [DecodeTrace.processEntry, h1, h2, DecodeTrace.getOriginalPosition, h3, h4]

/-- Consumer for the C7 witness: maps `(1, 5)` to line 2 of `src/a.ts`
without throwing. -/
def c7Consumer : ConsumerModel :=
  { originalPositionFor := fun _ _ =>
      .ok { source := none, line := 0, column := 0, name := none }
    sourceContentFor := fun _ => .ok none }

/-- Environment for the C7 witness. -/
def c7Env : DecoderEnv :=
  { dir := some [{ name := ("x.js.map").data, mtime := 1 }]
    loadSourceMap := fun _ => .ok c7Consumer
    contextLines := 1 }

/-- Frame for the C7 witness. -/
def c7Entry : Frame :=
  { original := ("at x.js:1:5").data, file := ("x.js").data, line := 1, column := 5 }

/-- Closed instance of `c7_context_window_target`: a two-line source
with target line 2 and radius 1, plus the null-position path of
`processEntry` on a concrete environment. -/
theorem c7_witness :
    (∃ w, DecodeTrace.getSourceContext (.ok (some (("a\nb").data))) 2 1 = some w ∧
      w.countP (fun e => e.isTarget) = 1 ∧
      ∀ e ∈ w, e.isTarget = true → e.lineNum = 2) ∧
    (DecodeTrace.processEntry c7Env c7Entry).contextQueried = false :=
  ⟨c7_context_window_target.1 (("a\nb").data) 2 1 (by decide) (by decide) (by decide),
   c7_context_window_target.2 c7Env c7Entry (("x.js.map").data) c7Consumer
     { source := none, line := 0, column := 0, name := none }
     (by decide) rfl rfl rfl⟩

/-! ## Claim C8 — bounds of parsed frames -/

/-- Claim C8 counterexample: the trace `at x:0:0` parses to a frame with
line 0, violating the claimed bound `line ≥ 1`. -/
theorem c8_counterexample :
    ¬ (∀ fr ∈ DecodeTrace.parseStackTrace (("at x:0:0").data), 1 ≤ fr.line) := by
  decide

/-- Claim C8 (amended): every parsed frame has `line ≥ 0`, `column ≥ 0`
(the digit captures cannot produce anything negative, but line 0 is
possible, so `≥ 1` fails) and a file component free of directory
separators (it is the final `/`-segment of the capture). -/
theorem c8_parsed_frame_bounds (t : List Char) (fr : Frame)
    (h : fr ∈ DecodeTrace.parseStackTrace t) :
    0 ≤ fr.line ∧ 0 ≤ fr.column ∧ '/' ∉ fr.file := by
  refine ⟨Nat.zero_le _, Nat.zero_le _, ?_⟩
  unfold DecodeTrace.parseStackTrace at h
  obtain ⟨line, -, h1⟩ := List.mem_flatMap.mp h
  obtain ⟨pat, -, h2⟩ := List.mem_flatMap.mp h1
  obtain ⟨m, -, rfl⟩ := List.mem_map.mp h2
  exact slash_not_mem_lastSegment _

/-- Closed instance of `c8_parsed_frame_bounds` on a trace whose capture
contains a directory prefix that the parser strips. -/
theorem c8_witness :
    0 ≤ (Frame.mk (("at a/b.js:3:4").data) (("b.js").data) 3 4).line ∧
    0 ≤ (Frame.mk (("at a/b.js:3:4").data) (("b.js").data) 3 4).column ∧
    '/' ∉ (Frame.mk (("at a/b.js:3:4").data) (("b.js").data) 3 4).file :=
  c8_parsed_frame_bounds (("at a/b.js:3:4").data) _ (by decide)

/-! ## Claim C9 — CLI and wrapper duplicate the same logic -/

/-- Claim C9: the CLI's and the wrapper's `extractBaseName` and
`parseStackTrace` are extensionally equal. -/
theorem c9_cli_wrapper_equivalence :
    (∀ f, DecodeTrace.extractBaseName f = StackTraceDecoder.extractBaseName f) ∧
    (∀ t, DecodeTrace.parseStackTrace t = StackTraceDecoder.parseStackTrace t) :=
  ⟨fun f => (wrapper_cli_go_eq f.length (stripJsExt f)).symm, fun _ => rfl⟩

/-! ## Claim C10 — `decodeStackTrace` decodes only the first frame -/

/-- Claim C10: `decodeStackTrace` returns `null` whenever the trace
parses to zero frames, and otherwise its value is exactly
`decodeEntry` of the first parsed frame — so the later frames never
influence the result. -/
theorem c10_first_frame_only (env : DecoderEnv) (t : List Char) :
    (StackTraceDecoder.parseStackTrace t = [] →
      StackTraceDecoder.decodeStackTrace env t = none) ∧
    (∀ e rest, StackTraceDecoder.parseStackTrace t = e :: rest →
      StackTraceDecoder.decodeStackTrace env t =
        (StackTraceDecoder.decodeEntry env e).result) := by
  constructor
  · intro h
    simp [StackTraceDecoder.decodeStackTrace, h]
  · intro e rest h
    simp [StackTraceDecoder.decodeStackTrace, h]

/-- Environment for the C10 witness. -/
def c10Env : DecoderEnv :=
  { dir := none, loadSourceMap := fun _ => .thrown [], contextLines := 3 }

/-- Closed instance of `c10_first_frame_only`: the empty trace decodes
to `null`, and a one-frame trace decodes to `decodeEntry` of that
frame. -/
theorem c10_witness :
    StackTraceDecoder.decodeStackTrace c10Env [] = none ∧
    StackTraceDecoder.decodeStackTrace c10Env (("at x:1:2").data) =
      (StackTraceDecoder.decodeEntry c10Env
        { original := ("at x:1:2").data, file := ("x").data, line := 1, column := 2 }).result :=
  ⟨(c10_first_frame_only c10Env []).1 (by decide),
   (c10_first_frame_only c10Env (("at x:1:2").data)).2
     { original := ("at x:1:2").data, file := ("x").data, line := 1, column := 2 } []
     (by decide)⟩

end AutoFixer
